import Mathlib

/-!
Verification of the provisioning pipeline in `scripts/resume.py`.

The file shallowly embeds the pure planning core of `resume.py`:
node-name classification (`main`, lines 289-304), placement-group
allocation (`create_placement_groups`), chunk planning (the nested
`chunks` function of `main`), the scheduling-field construction of
`create_instance`, and the per-chunk execution/failure handling of
`add_instances` (with the fallible provider calls abstracted as an
oracle).  Python dictionaries holding a fixed set of keys are embedded as
structures with `Option` fields; a key that a branch does not set is
`none`.  `util.get_pid` is not part of the sources; it is kept as an
abstract parameter `gp : String → String` (the spec only requires it to
be a pure, deterministic parse).
-/

namespace Resume

/-- `PLACEMENT_MAX_CNT = 22` (resume.py line 39). -/
def PLACEMENT_MAX_CNT : Nat := 22

/-- `TOT_REQ_CNT = 1000` (resume.py line 47). -/
def TOT_REQ_CNT : Nat := 1000

/-- Python truthiness of an optional string value (absent or `""` is falsy). -/
def strTruthy : Option String → Bool
  | none => false
  | some s => s ≠ ""

/-- Python truthiness of the `pg_names` argument of `chunks`
(`None` and the empty list are falsy). -/
def pgTruthy : Option (List String) → Bool
  | none => false
  | some l => !l.isEmpty

/-- `machine_type.split('-')[0]` (resume.py line 308): the prefix of the
machine type before the first `-` (Python `str.split` always returns at
least one field, the whole string when the separator is absent). -/
def machineFamily (s : String) : String :=
  (s.toList.takeWhile (fun c => c ≠ '-')).asString

/-- The fields of one `instance_defs` entry that the planning pipeline
reads (`cfg.instance_defs[pid]` in resume.py). -/
structure InstanceDef where
  machine_type : String
  gpu_type : Option String
  gpu_count : Nat
  preemptible_bursting : Bool
  enable_placement : Bool
  exclusive : Bool
  region : String
  zone : String
  regional_capacity : Bool
deriving DecidableEq

/-- The slice of the loaded configuration that `main` reads. -/
structure Cfg where
  cluster_name : String
  instance_defs : List (String × InstanceDef)
deriving DecidableEq

/-- `cfg.instance_defs[pid]`, made fallible: `none` models the `KeyError`
raised by a missing key. -/
def Cfg.lookupDef (cfg : Cfg) (pid : String) : Option InstanceDef :=
  (cfg.instance_defs.find? (fun kv => kv.fst == pid)).map Prod.snd

/-- The `config['scheduling']` dictionary of `create_instance`; each field
is a key that may or may not be present. -/
structure Scheduling where
  preemptible : Option Bool
  onHostMaintenance : Option String
  automaticRestart : Option Bool
deriving DecidableEq

/-- Scheduling dict written by the placement branch (resume.py lines 144-148). -/
def placementScheduling : Scheduling :=
  { preemptible := none, onHostMaintenance := some "TERMINATE", automaticRestart := some false }

/-- Scheduling dict written by the accelerator branch (resume.py line 157). -/
def gpuScheduling : Scheduling :=
  { preemptible := none, onHostMaintenance := some "TERMINATE", automaticRestart := none }

/-- Scheduling dict written by the preemptible branch (resume.py lines 159-164). -/
def preemptibleScheduling : Scheduling :=
  { preemptible := some true, onHostMaintenance := some "TERMINATE", automaticRestart := some false }

/-- The claim-relevant slice of the instance `config` dictionary built by
`create_instance`. -/
structure InstanceConfig where
  scheduling : Option Scheduling
  resourcePolicies : Option (List String)
  guestAccelerators : Option (Nat × String)
deriving DecidableEq

/-- The conditional branches of `create_instance` (resume.py lines
144-164): three sequential `if` statements, each of which overwrites
`config['scheduling']` wholesale when its condition holds.  The placement
branch tests `placement_group_name is not None`; the accelerator branch
tests the truthiness of `instance_def.gpu_type`; the preemptible branch
tests `instance_def.preemptible_bursting`. -/
def create_instance_config (instance_def : InstanceDef) (placement_group_name : Option String) :
    InstanceConfig :=
  let c0 : InstanceConfig :=
    { scheduling := none, resourcePolicies := none, guestAccelerators := none }
  let c1 :=
    if placement_group_name.isSome then
      { c0 with scheduling := some placementScheduling,
                resourcePolicies := some [placement_group_name.getD ""] }
    else c0
  let c2 :=
    if strTruthy instance_def.gpu_type then
      { c1 with guestAccelerators := some (instance_def.gpu_count, instance_def.gpu_type.getD ""),
                scheduling := some gpuScheduling }
    else c1
  let c3 :=
    if instance_def.preemptible_bursting then
      { c2 with scheduling := some preemptibleScheduling }
    else c2
  c3

/-- One chunk produced by `chunks` in `main`: the dictionary
`dict(nodes=...)` with the optional `'pg'` key. -/
structure NodeChunk where
  nodes : List String
  pg : Option String
deriving DecidableEq

/-- Loop of `chunks` (resume.py lines 321-327): take `n` nodes at a time
and pair the i-th chunk with `pg_names[pg_index]` when placement is
active.  The recursion is driven by a fuel argument instantiated with the
list length so that the definition reduces in the kernel; since each step
consumes at least one element, fuel `lst.length` reproduces the Python
loop `for i in range(0, len(lst), n)` exactly.  (The source indexes
`pg_names[pg_index]` directly, raising `IndexError` when out of range;
`List.get?` returns `none` instead, a case `main` never reaches because
the allocator always produces at least `ceil(len/22)` names.) -/
def chunksGo (usePg : Bool) (pg_names : List String) (n : Nat) :
    Nat → List String → Nat → List NodeChunk
  | 0, _, _ => []
  | _ + 1, [], _ => []
  | fuel + 1, a :: rest, pg_index =>
    { nodes := a :: rest.take (n - 1),
      pg := if usePg then pg_names.get? pg_index else none } ::
      chunksGo usePg pg_names n fuel (rest.drop (n - 1)) (pg_index + 1)

/-- `chunks(lst, pg_names)` (resume.py lines 315-327): chunk bound is
`1000`, or `PLACEMENT_MAX_CNT` when `pg_names` is truthy. -/
def chunks (lst : List String) (pg_names : Option (List String)) : List NodeChunk :=
  let n := if pgTruthy pg_names then PLACEMENT_MAX_CNT else 1000
  chunksGo (pgTruthy pg_names) (pg_names.getD []) n lst.length lst 0

/-- One placement-group creation request submitted by
`create_placement_groups`. -/
structure PGConfig where
  name : String
  region : String
  vmCount : Nat
deriving DecidableEq

/-- The creation requests submitted by `create_placement_groups`
(resume.py lines 256-275): for `i in range(vm_count)`, skip indices with
`i % PLACEMENT_MAX_CNT != 0`; at index `i`, the running `pg_index` equals
`i / PLACEMENT_MAX_CNT + 1`, the group is named
`f'{cluster_name}-{arg_job_id}-{pg_index}'` and its `vmCount` is
`min(vm_count - i, PLACEMENT_MAX_CNT)`. -/
def create_placement_groups_configs (cluster_name arg_job_id : String) (vm_count : Nat)
    (region : String) : List PGConfig :=
  (List.range vm_count).filterMap fun i =>
    if i % PLACEMENT_MAX_CNT == 0 then
      some { name := cluster_name ++ "-" ++ arg_job_id ++ "-" ++ toString (i / PLACEMENT_MAX_CNT + 1),
             region := region,
             vmCount := min (vm_count - i) PLACEMENT_MAX_CNT }
    else none

/-- `create_placement_groups` returns the ordered list `pg_names`
(resume.py line 280). -/
def create_placement_groups (cluster_name arg_job_id : String) (vm_count : Nat)
    (region : String) : List String :=
  (create_placement_groups_configs cluster_name arg_job_id vm_count region).map PGConfig.name

/-- Helper for `itertools.groupby`: consume the list, extending the
current run while the pid stays `p`, and start a new run at each pid
change.  `acc` holds the current run in reverse. -/
def groupPidAux (gp : String → String) : List String → String → List String → List (List String)
  | [], _, acc => [acc.reverse]
  | b :: rest, p, acc =>
    if gp b == p then groupPidAux gp rest p (b :: acc)
    else acc.reverse :: groupPidAux gp rest (gp b) [b]

/-- `itertools.groupby(node_list, util.get_pid)` (resume.py line 298):
maximal runs of consecutive nodes sharing a pid. -/
def groupByPid (gp : String → String) : List String → List (List String)
  | [] => []
  | a :: rest => groupPidAux gp rest (gp a) [a]

/-- `nodes_by_pid = {k: tuple(nodes) for k, nodes in groupby(...)}`
(resume.py lines 297-298), as an association list in iteration order.
`main` only applies this to a pid-sorted list, on which `groupby` yields
each pid exactly once, so the Python dict never overwrites a key. -/
def nodes_by_pid (gp : String → String) (node_list : List String) :
    List (String × List String) :=
  (groupByPid gp node_list).map (fun g => (gp (g.headD ""), g))

/-- Lines 300-304 of resume.py: with no job id, delete every pid whose
`InstanceDef` is marked exclusive.  The list comprehension evaluates
`cfg.instance_defs[pid]` for every classified pid in iteration order, so
the first missing pid raises `KeyError` (modelled as `.error pid`). -/
def drop_exclusive (cfg : Cfg) : List (String × List String) →
    Except String (List (String × List String))
  | [] => .ok []
  | (p, g) :: rest =>
    match cfg.lookupDef p with
    | none => .error p
    | some d =>
      (drop_exclusive cfg rest).map (fun r => if d.exclusive then r else (p, g) :: r)

/-- `node_list = sorted(nodes_str.splitlines(), key=util.get_pid)`
(resume.py line 289): a stable sort by pid; Python string comparison and
Lean `String` order are both lexicographic on code points, and
`List.mergeSort` is stable, as Python `sorted` is. -/
def main_node_list (gp : String → String) (nodes : List String) : List String :=
  nodes.mergeSort (fun a b => decide (gp a ≤ gp b))

/-- Truthiness of `arg_job_id`: absent (the default `job_id = 0`) and the
empty string are falsy. -/
def jobTruthy : Option String → Bool
  | none => false
  | some s => s ≠ ""

/-- Outcome of the planning phase of `main` (resume.py lines 284-333),
everything up to dispatching the chunks to the thread pool. -/
inductive MainPlan where
  /-- `node_list[0]` raised `IndexError` (empty node list). -/
  | indexError : MainPlan
  /-- `cfg.instance_defs[pid]` raised `KeyError` during planning. -/
  | keyError (pid : String) : MainPlan
  /-- The PrologSlurmctld no-op: `return` at line 295. -/
  | earlyReturn : MainPlan
  /-- Chunks handed to the `ThreadPoolExecutor`, with the classified
  groups and the placement-group requests that were created. -/
  | dispatch (groups : List (String × List String)) (placement : Option (List PGConfig))
      (chunkList : List NodeChunk) : MainPlan
deriving DecidableEq

/-- The names of the created placement groups, as passed to `chunks`. -/
def plan_pg_names (placement : Option (List PGConfig)) : Option (List String) :=
  placement.map (List.map PGConfig.name)

/-- The chunk list dispatched for classified groups `gs` and placement
groups `pl`: `chain.from_iterable(map(partial(chunks, pg_names=...),
nodes_by_pid.values()))` (resume.py lines 330-332). -/
def dispatch_of (gs : List (String × List String)) (pl : Option (List PGConfig)) : MainPlan :=
  .dispatch gs pl ((gs.map (fun pr => chunks pr.2 (plan_pg_names pl))).flatten)

/-- `main` after the sort (resume.py lines 291-333), on the already
pid-sorted `node_list`.  Mirrors the source line by line:
`pid = get_pid(node_list[0])`; the PrologSlurmctld early return
(`arg_job_id` truthy and the first pid not exclusive); the
exclusive-pid deletion when `arg_job_id` is falsy; the placement-group
creation from the first pid's definition and the total node count; and
the per-group chunking. -/
def main_plan_core (cfg : Cfg) (gp : String → String) (node_list : List String)
    (arg_job_id : Option String) : MainPlan :=
  match node_list.head? with
  | none => .indexError
  | some first =>
    let pid := gp first
    if jobTruthy arg_job_id then
      match cfg.lookupDef pid with
      | none => .keyError pid
      | some d =>
        if !d.exclusive then .earlyReturn
        else
          let groups := nodes_by_pid gp node_list
          let placement :=
            if d.enable_placement && (machineFamily d.machine_type == "c2")
                && decide (node_list.length > 1) then
              some (create_placement_groups_configs cfg.cluster_name
                (arg_job_id.getD "") node_list.length d.region)
            else none
          dispatch_of groups placement
    else
      match drop_exclusive cfg (nodes_by_pid gp node_list) with
      | .error p => .keyError p
      | .ok groups₂ => dispatch_of groups₂ none

/-- `main(arg_nodes, arg_job_id)` planning phase: sort, then classify,
allocate and chunk (resume.py lines 284-333). -/
def main_plan (cfg : Cfg) (gp : String → String) (arg_nodes : List String)
    (arg_job_id : Option String) : MainPlan :=
  main_plan_core cfg gp (main_node_list gp arg_nodes) arg_job_id

/-- The chunks a plan hands to the worker pool. -/
def plan_chunks : MainPlan → List NodeChunk
  | .dispatch _ _ cl => cl
  | _ => []

/-- The classified groups of a plan. -/
def plan_groups : MainPlan → List (String × List String)
  | .dispatch gs _ _ => gs
  | _ => []

/-- The placement-group creation requests a plan submitted. -/
def plan_placement : MainPlan → Option (List PGConfig)
  | .dispatch _ pl _ => pl
  | _ => none

/-- The fixed diagnostic reason passed to `down_nodes` (resume.py line 223). -/
def RESUME_FAIL_REASON : String := "resume.py failed, see resume.log"

/-- Observable outcome of one worker running `add_instances` on a chunk. -/
inductive ChunkExec where
  /-- `node_list[0]` raised `IndexError` before the `try` block; the
  exception escapes the worker (no submission, no reconciliation). -/
  | indexError : ChunkExec
  /-- `cfg.instance_defs[pid]` raised `KeyError` before the `try` block
  (resume.py line 216); the exception escapes the worker (no submission,
  no reconciliation). -/
  | keyError (pid : String) : ChunkExec
  /-- `create_instance` was submitted and the wait finished. -/
  | submitted (pid : String) (nodes : List String) : ChunkExec
  /-- `create_instance`/`wait_for_operation` raised inside the `try`;
  the handler called `down_nodes(node_list, reason)` and returned. -/
  | downed (nodes : List String) (reason : String) : ChunkExec
deriving DecidableEq

/-- `add_instances(node_chunk)` (resume.py lines 198-224).  The provider
interaction inside the `try` block is abstracted by the oracle
`op_fails`: `op_fails c = true` means `create_instance` or
`wait_for_operation` raised for chunk `c`.  On such an error the handler
calls `down_nodes(node_list, "resume.py failed, see resume.log")` and
swallows the exception (the function returns normally). -/
def add_instances (cfg : Cfg) (gp : String → String) (op_fails : NodeChunk → Bool)
    (c : NodeChunk) : ChunkExec :=
  match c.nodes.head? with
  | none => .indexError
  | some n0 =>
    let pid := gp n0
    match cfg.lookupDef pid with
    | none => .keyError pid
    | some _ =>
      if op_fails c then .downed c.nodes RESUME_FAIL_REASON
      else .submitted pid c.nodes

/-- The `down_nodes` invocations (node list, reason) an outcome carries. -/
def down_calls : ChunkExec → List (List String × String)
  | .downed ns r => [(ns, r)]
  | _ => []

/-- The node lists of the bulk-create requests an outcome submitted. -/
def submissions : ChunkExec → List (List String)
  | .submitted _ ns => [ns]
  | _ => []

/-- `exe.map(add_instances, node_chunks)` (resume.py line 333): each
dispatched chunk is processed by `add_instances`, independently of the
other chunks (chunks share no mutable state after planning). -/
def run_plan (cfg : Cfg) (gp : String → String) (op_fails : NodeChunk → Bool)
    (plan : MainPlan) : List ChunkExec :=
  (plan_chunks plan).map (add_instances cfg gp op_fails)

/-! ### Lemmas about the chunk planner -/

theorem chunksGo_flatten (usePg : Bool) (pg_names : List String) (n : Nat) :
    ∀ (fuel : Nat) (lst : List String) (pg_index : Nat), lst.length ≤ fuel →
      ((chunksGo usePg pg_names n fuel lst pg_index).map NodeChunk.nodes).flatten = lst
  | 0, [], _, _ => rfl
  | 0, _ :: _, _, h => by simp at h
  | _ + 1, [], _, _ => rfl
  | fuel + 1, a :: rest, pg_index, h => by
    have hlen : (rest.drop (n - 1)).length ≤ fuel := by
      simp only [List.length_drop]
      simp only [List.length_cons] at h
      omega
    simp only [chunksGo, List.map_cons, List.flatten_cons,
      chunksGo_flatten usePg pg_names n fuel _ _ hlen]
    simp [List.take_append_drop]

theorem chunksGo_nonempty (usePg : Bool) (pg_names : List String) (n : Nat) :
    ∀ (fuel : Nat) (lst : List String) (pg_index : Nat),
      ∀ c ∈ chunksGo usePg pg_names n fuel lst pg_index, c.nodes ≠ []
  | 0, _, _ => by intro c hc; simp [chunksGo] at hc
  | _ + 1, [], _ => by intro c hc; simp [chunksGo] at hc
  | fuel + 1, a :: rest, pg_index => by
    intro c hc
    simp only [chunksGo, List.mem_cons] at hc
    rcases hc with rfl | hc
    · simp
    · exact chunksGo_nonempty usePg pg_names n fuel _ _ c hc

theorem chunksGo_size (usePg : Bool) (pg_names : List String) (n : Nat) (hn : 1 ≤ n) :
    ∀ (fuel : Nat) (lst : List String) (pg_index : Nat),
      ∀ c ∈ chunksGo usePg pg_names n fuel lst pg_index, c.nodes.length ≤ n
  | 0, _, _ => by intro c hc; simp [chunksGo] at hc
  | _ + 1, [], _ => by intro c hc; simp [chunksGo] at hc
  | fuel + 1, a :: rest, pg_index => by
    intro c hc
    simp only [chunksGo, List.mem_cons] at hc
    rcases hc with rfl | hc
    · simp only [List.length_cons]
      have := List.length_take_le (n - 1) rest
      omega
    · exact chunksGo_size usePg pg_names n hn fuel _ _ c hc

theorem chunksGo_pg_of_not (pg_names : List String) (n : Nat) :
    ∀ (fuel : Nat) (lst : List String) (pg_index : Nat),
      ∀ c ∈ chunksGo false pg_names n fuel lst pg_index, c.pg = none
  | 0, _, _ => by intro c hc; simp [chunksGo] at hc
  | _ + 1, [], _ => by intro c hc; simp [chunksGo] at hc
  | fuel + 1, a :: rest, pg_index => by
    intro c hc
    simp only [chunksGo, List.mem_cons] at hc
    rcases hc with rfl | hc
    · simp
    · exact chunksGo_pg_of_not pg_names n fuel _ _ c hc

theorem chunksGo_pg_get (usePg : Bool) (pg_names : List String) (n : Nat) :
    ∀ (fuel : Nat) (lst : List String) (pg_index i : Nat) (c : NodeChunk),
      (chunksGo usePg pg_names n fuel lst pg_index).get? i = some c →
      c.pg = if usePg then pg_names.get? (pg_index + i) else none
  | 0, _, _, _, _ => by intro h; simp [chunksGo] at h
  | _ + 1, [], _, _, _ => by intro h; simp [chunksGo] at h
  | fuel + 1, a :: rest, pg_index, i, c => by
    intro h
    match i with
    | 0 =>
      simp only [chunksGo, List.get?_cons_zero, Option.some_inj] at h
      subst h
      simp
    | i + 1 =>
      simp only [chunksGo, List.get?_cons_succ] at h
      have := chunksGo_pg_get usePg pg_names n fuel (rest.drop (n - 1)) (pg_index + 1) i c h
      rw [this]
      have harith : pg_index + 1 + i = pg_index + (i + 1) := by omega
      rw [harith]

theorem chunksGo_length_22 (usePg : Bool) (pg_names : List String) :
    ∀ (fuel : Nat) (lst : List String) (pg_index : Nat), lst.length ≤ fuel →
      (chunksGo usePg pg_names 22 fuel lst pg_index).length = (lst.length + 21) / 22
  | 0, [], _, _ => rfl
  | 0, _ :: _, _, h => by simp at h
  | _ + 1, [], _, _ => rfl
  | fuel + 1, a :: rest, pg_index, h => by
    have hlen : (rest.drop 21).length ≤ fuel := by
      simp only [List.length_drop]
      simp only [List.length_cons] at h
      omega
    simp only [chunksGo, List.length_cons,
      chunksGo_length_22 usePg pg_names fuel _ _ hlen]
    simp only [List.length_drop]
    omega

theorem chunks_flatten (lst : List String) (pg_names : Option (List String)) :
    ((chunks lst pg_names).map NodeChunk.nodes).flatten = lst :=
  chunksGo_flatten _ _ _ _ _ _ (le_refl _)

theorem chunks_nonempty (lst : List String) (pg_names : Option (List String)) :
    ∀ c ∈ chunks lst pg_names, c.nodes ≠ [] :=
  chunksGo_nonempty _ _ _ _ _ _

theorem chunks_size (lst : List String) (pg_names : Option (List String)) :
    ∀ c ∈ chunks lst pg_names,
      c.nodes.length ≤ 1000 ∧ (c.pg.isSome = true → c.nodes.length ≤ 22) := by
  intro c hc
  unfold chunks at hc
  by_cases hp : pgTruthy pg_names
  · simp only [hp, if_true] at hc
    have hs := chunksGo_size (pgTruthy pg_names) (pg_names.getD []) PLACEMENT_MAX_CNT
      (by norm_num [PLACEMENT_MAX_CNT]) lst.length lst 0 c (by simpa [hp] using hc)
    refine ⟨le_trans hs (by norm_num [PLACEMENT_MAX_CNT]), fun _ => ?_⟩
    simpa [PLACEMENT_MAX_CNT] using hs
  · simp only [hp, Bool.false_eq_true, if_false] at hc
    have hs := chunksGo_size false (pg_names.getD []) 1000 (by norm_num)
      lst.length lst 0 c hc
    refine ⟨hs, fun hsome => ?_⟩
    have := chunksGo_pg_of_not (pg_names.getD []) 1000 lst.length lst 0 c hc
    rw [this] at hsome
    simp at hsome

/-! ### Lemmas about classification -/

theorem headD_mem {α : Type _} (d : α) : ∀ (L : List α), L ≠ [] → L.headD d ∈ L
  | [], h => absurd rfl h
  | _ :: _, _ => by simp

theorem groupPidAux_flatten (gp : String → String) :
    ∀ (l : List String) (p : String) (acc : List String),
      (groupPidAux gp l p acc).flatten = acc.reverse ++ l
  | [], _, _ => by simp [groupPidAux]
  | b :: rest, p, acc => by
    simp only [groupPidAux]
    by_cases h : gp b == p
    · rw [if_pos h, groupPidAux_flatten gp rest p (b :: acc)]
      simp
    · rw [if_neg h]
      simp only [List.flatten_cons, groupPidAux_flatten gp rest (gp b) [b]]
      simp

theorem groupPidAux_nonempty (gp : String → String) :
    ∀ (l : List String) (p : String) (acc : List String), acc ≠ [] →
      ∀ g ∈ groupPidAux gp l p acc, g ≠ []
  | [], p, acc => by
    intro hne g hg
    simp only [groupPidAux, List.mem_singleton] at hg
    subst hg
    simpa using hne
  | b :: rest, p, acc => by
    intro hne g hg
    simp only [groupPidAux] at hg
    by_cases h : gp b == p
    · rw [if_pos h] at hg
      exact groupPidAux_nonempty gp rest p (b :: acc) (by simp) g hg
    · rw [if_neg h] at hg
      rcases List.mem_cons.mp hg with rfl | hg
      · simpa using hne
      · exact groupPidAux_nonempty gp rest (gp b) [b] (by simp) g hg

theorem groupPidAux_filter (gp : String → String) :
    ∀ (l : List String) (p : String) (acc : List String),
      (∀ x ∈ acc, gp x = p) → acc ≠ [] →
      (acc.reverse ++ l).Pairwise (fun a b => gp a ≤ gp b) →
      ∀ g ∈ groupPidAux gp l p acc,
        g = (acc.reverse ++ l).filter (fun x => gp x == gp (g.headD ""))
  | [], p, acc => by
    intro hacc hne _ g hg
    simp only [groupPidAux, List.mem_singleton] at hg
    subst hg
    have hne' : acc.reverse ≠ [] := by simpa using hne
    have hhead : gp (acc.reverse.headD "") = p :=
      hacc _ (List.mem_reverse.mp (headD_mem "" _ hne'))
    rw [List.append_nil, hhead]
    refine (List.filter_eq_self.mpr ?_).symm
    intro x hx
    simp only [beq_iff_eq]
    exact hacc x (List.mem_reverse.mp hx)
  | b :: rest, p, acc => by
    intro hacc hne hsort g hg
    simp only [groupPidAux] at hg
    by_cases hbp : gp b == p
    · rw [if_pos hbp] at hg
      have hb : gp b = p := by simpa using hbp
      have hacc' : ∀ x ∈ b :: acc, gp x = p := by
        intro x hx
        rcases List.mem_cons.mp hx with rfl | hx
        · exact hb
        · exact hacc x hx
      have hlist : (b :: acc).reverse ++ rest = acc.reverse ++ b :: rest := by simp
      have hsort' : ((b :: acc).reverse ++ rest).Pairwise (fun a b => gp a ≤ gp b) := by
        rw [hlist]; exact hsort
      have hres := groupPidAux_filter gp rest p (b :: acc) hacc' (by simp) hsort' g hg
      rw [hlist] at hres
      exact hres
    · rw [if_neg hbp] at hg
      have hbp' : gp b ≠ p := by simpa using hbp
      obtain ⟨h₁, h₂, hcross⟩ := List.pairwise_append.mp hsort
      have hne' : acc.reverse ≠ [] := by simpa using hne
      have hpb : p < gp b := by
        have ha0 : acc.reverse.headD "" ∈ acc.reverse := headD_mem "" _ hne'
        have hle : p ≤ gp b := by
          have := hcross _ ha0 b (List.mem_cons_self _ _)
          rwa [hacc _ (List.mem_reverse.mp ha0)] at this
        exact lt_of_le_of_ne hle (Ne.symm hbp')
      have hrest_gt : ∀ z ∈ b :: rest, p < gp z := by
        intro z hz
        rcases List.mem_cons.mp hz with rfl | hz
        · exact hpb
        · exact lt_of_lt_of_le hpb ((List.pairwise_cons.mp h₂).1 z hz)
      rcases List.mem_cons.mp hg with rfl | hg'
      · have hhead : gp (acc.reverse.headD "") = p :=
          hacc _ (List.mem_reverse.mp (headD_mem "" _ hne'))
        rw [hhead, List.filter_append]
        have hfl : acc.reverse.filter (fun x => gp x == p) = acc.reverse := by
          refine List.filter_eq_self.mpr ?_
          intro x hx
          simp only [beq_iff_eq]
          exact hacc x (List.mem_reverse.mp hx)
        have hfr : (b :: rest).filter (fun x => gp x == p) = [] := by
          refine List.filter_eq_nil_iff.mpr ?_
          intro z hz
          simp only [beq_iff_eq]
          exact fun h => absurd h.symm (ne_of_lt (hrest_gt z hz))
        rw [hfl, hfr, List.append_nil]
      · have hsort'' : ([b].reverse ++ rest).Pairwise (fun a b => gp a ≤ gp b) := by
          simpa using h₂
        have hres := groupPidAux_filter gp rest (gp b) [b] (by simp) (by simp) hsort'' g hg'
        have hgsub : ∀ x ∈ g, x ∈ b :: rest := by
          intro x hx
          have hxf : x ∈ (groupPidAux gp rest (gp b) [b]).flatten :=
            List.mem_flatten.mpr ⟨g, hg', hx⟩
          rw [groupPidAux_flatten] at hxf
          simpa using hxf
        have hgne : g ≠ [] := groupPidAux_nonempty gp rest (gp b) [b] (by simp) g hg'
        have hq : p < gp (g.headD "") := hrest_gt _ (hgsub _ (headD_mem "" g hgne))
        rw [List.filter_append]
        have hfl : acc.reverse.filter (fun x => gp x == gp (g.headD "")) = [] := by
          refine List.filter_eq_nil_iff.mpr ?_
          intro x hx
          simp only [beq_iff_eq]
          rw [hacc x (List.mem_reverse.mp hx)]
          exact ne_of_lt hq
        rw [hfl, List.nil_append]
        have : [b].reverse ++ rest = b :: rest := by simp
        rw [← this, ← hres]

theorem groupByPid_flatten (gp : String → String) :
    ∀ l : List String, (groupByPid gp l).flatten = l
  | [] => rfl
  | a :: rest => by
    simp only [groupByPid, groupPidAux_flatten]
    simp

theorem groupByPid_nonempty (gp : String → String) (l : List String) :
    ∀ g ∈ groupByPid gp l, g ≠ [] := by
  match l with
  | [] => intro g hg; simp [groupByPid] at hg
  | a :: rest =>
    intro g hg
    exact groupPidAux_nonempty gp rest (gp a) [a] (by simp) g hg

theorem nodes_by_pid_flatten (gp : String → String) (l : List String) :
    ((nodes_by_pid gp l).map Prod.snd).flatten = l := by
  unfold nodes_by_pid
  rw [List.map_map]
  have : (Prod.snd ∘ fun g : List String => (gp (g.headD ""), g)) = id := by
    funext g; rfl
  rw [this, List.map_id, groupByPid_flatten]

theorem nodes_by_pid_nonempty (gp : String → String) (l : List String) :
    ∀ pr ∈ nodes_by_pid gp l, pr.2 ≠ [] := by
  intro pr hpr
  unfold nodes_by_pid at hpr
  obtain ⟨g, hg, rfl⟩ := List.mem_map.mp hpr
  exact groupByPid_nonempty gp l g hg

theorem nodes_by_pid_filter (gp : String → String) (l : List String)
    (hsort : l.Pairwise (fun a b => gp a ≤ gp b)) :
    ∀ pr ∈ nodes_by_pid gp l, pr.2 = l.filter (fun x => gp x == pr.1) := by
  intro pr hpr
  unfold nodes_by_pid at hpr
  obtain ⟨g, hg, rfl⟩ := List.mem_map.mp hpr
  match l, hg with
  | a :: rest, hg =>
    have hsort' : ([a].reverse ++ rest).Pairwise (fun a b => gp a ≤ gp b) := by
      simpa using hsort
    have := groupPidAux_filter gp rest (gp a) [a] (by simp) (by simp) hsort' g hg
    simpa using this

/-! ### Lemmas about the stable sort at line 289 -/

theorem pidLe_trans (gp : String → String) :
    ∀ (a b c : String), (decide (gp a ≤ gp b)) → (decide (gp b ≤ gp c)) →
      (decide (gp a ≤ gp c)) := by
  intro a b c hab hbc
  simp only [decide_eq_true_eq] at *
  exact le_trans hab hbc

theorem pidLe_total (gp : String → String) :
    ∀ (a b : String), (decide (gp a ≤ gp b)) || (decide (gp b ≤ gp a)) := by
  intro a b
  simp only [Bool.or_eq_true, decide_eq_true_eq]
  exact le_total (gp a) (gp b)

theorem main_node_list_sorted (gp : String → String) (nodes : List String) :
    (main_node_list gp nodes).Pairwise (fun a b => gp a ≤ gp b) := by
  have h : (List.mergeSort nodes (fun a b => decide (gp a ≤ gp b))).Pairwise
      (fun a b => (decide (gp a ≤ gp b)) = true) :=
    List.sorted_mergeSort (pidLe_trans gp) (pidLe_total gp) nodes
  exact h.imp (fun {a b} hab => by simpa using hab)

theorem main_node_list_perm (gp : String → String) (nodes : List String) :
    (main_node_list gp nodes).Perm nodes :=
  List.mergeSort_perm nodes _

theorem main_node_list_nodup (gp : String → String) (nodes : List String)
    (h : nodes.Nodup) : (main_node_list gp nodes).Nodup :=
  (main_node_list_perm gp nodes).nodup_iff.mpr h

/-- Stability of the sort at line 289: the subsequence of nodes with any
given pid is the same, in the same order, before and after sorting. -/
theorem main_node_list_filter (gp : String → String) (nodes : List String) (p : String) :
    (main_node_list gp nodes).filter (fun x => gp x == p) =
      nodes.filter (fun x => gp x == p) := by
  have hpair : (nodes.filter (fun x => gp x == p)).Pairwise
      (fun a b => (decide (gp a ≤ gp b)) = true) := by
    refine List.pairwise_of_forall_mem_list ?_
    intro a ha b hb
    have ha' : gp a = p := by simpa using (List.of_mem_filter ha)
    have hb' : gp b = p := by simpa using (List.of_mem_filter hb)
    simp [ha', hb']
  have hsub : (nodes.filter (fun x => gp x == p)).Sublist
      (List.mergeSort nodes (fun a b => decide (gp a ≤ gp b))) :=
    List.sublist_mergeSort (pidLe_trans gp) (pidLe_total gp) hpair
      (List.filter_sublist nodes)
  have hsub₂ : (nodes.filter (fun x => gp x == p)).Sublist
      ((main_node_list gp nodes).filter (fun x => gp x == p)) := by
    have hff := hsub.filter (fun x => gp x == p)
    have heq : (nodes.filter (fun x => gp x == p)).filter (fun x => gp x == p)
        = nodes.filter (fun x => gp x == p) := by
      refine List.filter_eq_self.mpr ?_
      intro a ha
      simpa using List.of_mem_filter ha
    rwa [heq] at hff
  have hperm : ((main_node_list gp nodes).filter (fun x => gp x == p)).Perm
      (nodes.filter (fun x => gp x == p)) :=
    (main_node_list_perm gp nodes).filter _
  exact (hsub₂.eq_of_length hperm.length_eq.symm).symm

theorem main_node_list_head_min (gp : String → String) (nodes : List String) (first : String)
    (h : (main_node_list gp nodes).head? = some first) :
    ∀ x ∈ nodes, gp first ≤ gp x := by
  intro x hx
  have hx' : x ∈ main_node_list gp nodes := (main_node_list_perm gp nodes).mem_iff.mpr hx
  have hs := main_node_list_sorted gp nodes
  cases hml : main_node_list gp nodes with
  | nil => rw [hml] at h; simp at h
  | cons f t =>
    rw [hml] at h hx' hs
    simp only [List.head?_cons, Option.some_inj] at h
    subst h
    rcases List.mem_cons.mp hx' with rfl | hx'
    · exact le_refl _
    · exact (List.pairwise_cons.mp hs).1 x hx'

/-- If the input is already sorted by pid, the sort leaves it unchanged
(used to evaluate the pipeline on concrete examples). -/
theorem main_node_list_of_sorted (gp : String → String) (nodes : List String)
    (h : nodes.Pairwise (fun a b => (gp a).toList ≤ (gp b).toList)) :
    main_node_list gp nodes = nodes :=
  List.mergeSort_of_sorted
    (h.imp (fun {a b} hab => decide_eq_true (String.le_iff_toList_le.mpr hab)))

/-! ### Lemmas about the exclusive-pid deletion -/

/-- Whether lines 300-304 keep the group: its pid has an `InstanceDef`
that is not exclusive. -/
def keepGroup (cfg : Cfg) (pr : String × List String) : Bool :=
  match cfg.lookupDef pr.1 with
  | some d => !d.exclusive
  | none => false

theorem drop_exclusive_ok (cfg : Cfg) :
    ∀ gs : List (String × List String), (∀ pr ∈ gs, (cfg.lookupDef pr.1).isSome) →
      drop_exclusive cfg gs = .ok (gs.filter (keepGroup cfg))
  | [], _ => rfl
  | (p, g) :: rest, hdefs => by
    have hp : (cfg.lookupDef p).isSome := hdefs (p, g) (List.mem_cons_self _ _)
    match hl : cfg.lookupDef p with
    | none => rw [hl] at hp; simp at hp
    | some d =>
      have hrest := drop_exclusive_ok cfg rest
        (fun pr hpr => hdefs pr (List.mem_cons_of_mem _ hpr))
      simp only [drop_exclusive, hl, hrest, Except.map]
      by_cases hd : d.exclusive
      · simp [hd, List.filter_cons, keepGroup, hl]
      · simp [hd, List.filter_cons, keepGroup, hl]

theorem drop_exclusive_error (cfg : Cfg) :
    ∀ gs : List (String × List String), (∃ pr ∈ gs, cfg.lookupDef pr.1 = none) →
      ∃ p, drop_exclusive cfg gs = .error p
  | [], h => by simp at h
  | (p, g) :: rest, h => by
    match hl : cfg.lookupDef p with
    | none => exact ⟨p, by simp [drop_exclusive, hl]⟩
    | some d =>
      have hrest : ∃ pr ∈ rest, cfg.lookupDef pr.1 = none := by
        rcases h with ⟨pr, hpr, hnone⟩
        rcases List.mem_cons.mp hpr with rfl | hpr
        · rw [hl] at hnone; exact absurd hnone (by simp)
        · exact ⟨pr, hpr, hnone⟩
      obtain ⟨q, hq⟩ := drop_exclusive_error cfg rest hrest
      exact ⟨q, by simp [drop_exclusive, hl, hq, Except.map]⟩

theorem drop_exclusive_sublist (cfg : Cfg) :
    ∀ gs r : List (String × List String), drop_exclusive cfg gs = .ok r → r.Sublist gs
  | [], r, h => by
    simp only [drop_exclusive, Except.ok.injEq] at h
    subst h
    exact List.Sublist.refl _
  | (p, g) :: rest, r, h => by
    simp only [drop_exclusive] at h
    match hl : cfg.lookupDef p with
    | none => rw [hl] at h; simp at h
    | some d =>
      rw [hl] at h
      match hr : drop_exclusive cfg rest with
      | .error q => rw [hr] at h; simp [Except.map] at h
      | .ok r₂ =>
        rw [hr] at h
        simp only [Except.map, Except.ok.injEq] at h
        have hsub := drop_exclusive_sublist cfg rest r₂ hr
        by_cases hd : d.exclusive
        · rw [if_pos hd] at h
          subst h
          exact hsub.trans (List.sublist_cons_self _ _)
        · rw [if_neg hd] at h
          subst h
          exact hsub.cons₂ _

/-! ### Lemmas about the placement-group allocator -/

theorem filterMap_if_eq_map_filter {α β : Type _} (p : α → Bool) (g : α → β) :
    ∀ l : List α,
      l.filterMap (fun i => if p i then some (g i) else none) = (l.filter p).map g
  | [] => rfl
  | a :: l => by
    by_cases h : p a
    · simp [List.filterMap_cons, List.filter_cons, h, filterMap_if_eq_map_filter p g l]
    · simp [List.filterMap_cons, List.filter_cons, h, filterMap_if_eq_map_filter p g l]

theorem range_filter_mod22 :
    ∀ n : Nat, (List.range n).filter (fun i => i % 22 == 0) =
      (List.range ((n + 21) / 22)).map (fun k => 22 * k)
  | 0 => rfl
  | n + 1 => by
    rw [List.range_succ, List.filter_append, range_filter_mod22 n]
    by_cases h : n % 22 = 0
    · have hm : (n + 1 + 21) / 22 = (n + 21) / 22 + 1 := by omega
      have hn : n = 22 * ((n + 21) / 22) := by omega
      rw [hm, List.range_succ, List.map_append]
      simp [h, ← hn]
    · have hm : (n + 1 + 21) / 22 = (n + 21) / 22 := by omega
      have h' : (n % 22 == 0) = false := by simpa using h
      rw [hm]
      simp [List.filter_cons, h']

theorem create_placement_groups_configs_eq (cn j : String) (n : Nat) (r : String) :
    create_placement_groups_configs cn j n r =
      (List.range ((n + 21) / 22)).map (fun k =>
        { name := cn ++ "-" ++ j ++ "-" ++ toString (k + 1), region := r,
          vmCount := min (n - 22 * k) 22 }) := by
  unfold create_placement_groups_configs PLACEMENT_MAX_CNT
  rw [filterMap_if_eq_map_filter, range_filter_mod22, List.map_map]
  refine List.map_congr_left ?_
  intro k _
  have hdiv : 22 * k / 22 = k := by omega
  simp [Function.comp, hdiv]

theorem pg_sizes_sum :
    ∀ (K n : Nat), K = (n + 21) / 22 →
      ((List.range K).map (fun k => min (n - 22 * k) 22)).sum = n
  | 0, n, h => by
    have hn : n = 0 := by omega
    simp [hn]
  | K + 1, n, h => by
    rw [List.range_succ_eq_map]
    simp only [List.map_cons, List.map_map, List.sum_cons]
    have hcongr : (List.range K).map ((fun k => min (n - 22 * k) 22) ∘ Nat.succ) =
        (List.range K).map (fun k => min ((n - 22) - 22 * k) 22) := by
      refine List.map_congr_left ?_
      intro k _
      simp only [Function.comp]
      congr 1
      omega
    rw [hcongr, pg_sizes_sum K (n - 22) (by omega)]
    omega

/-! ### Inversion lemmas for the planning phase -/

theorem main_plan_dispatch_inv (cfg : Cfg) (gp : String → String) (nodes : List String)
    (jid : Option String) (gs : List (String × List String)) (pl : Option (List PGConfig))
    (cl : List NodeChunk) (h : main_plan cfg gp nodes jid = .dispatch gs pl cl) :
    cl = (gs.map (fun pr => chunks pr.2 (plan_pg_names pl))).flatten ∧
    gs.Sublist (nodes_by_pid gp (main_node_list gp nodes)) := by
  unfold main_plan main_plan_core at h
  match hh : (main_node_list gp nodes).head? with
  | none => rw [hh] at h; simp at h
  | some first =>
    rw [hh] at h
    simp only at h
    by_cases hj : jobTruthy jid
    · rw [if_pos hj] at h
      match hl : cfg.lookupDef (gp first) with
      | none => rw [hl] at h; simp at h
      | some d =>
        rw [hl] at h
        simp only at h
        by_cases hex : !d.exclusive
        · rw [if_pos hex] at h; simp at h
        · rw [if_neg hex] at h
          simp only [dispatch_of, MainPlan.dispatch.injEq] at h
          obtain ⟨rfl, rfl, rfl⟩ := h
          exact ⟨rfl, List.Sublist.refl _⟩
    · rw [if_neg hj] at h
      match hdrop : drop_exclusive cfg (nodes_by_pid gp (main_node_list gp nodes)) with
      | .error q => rw [hdrop] at h; simp at h
      | .ok g₂ =>
        rw [hdrop] at h
        simp only [dispatch_of, MainPlan.dispatch.injEq] at h
        obtain ⟨rfl, rfl, rfl⟩ := h
        exact ⟨rfl, drop_exclusive_sublist cfg _ _ hdrop⟩

theorem main_plan_placement_inv (cfg : Cfg) (gp : String → String) (nodes : List String)
    (jid : Option String) (gs : List (String × List String)) (pgc : List PGConfig)
    (cl : List NodeChunk) (h : main_plan cfg gp nodes jid = .dispatch gs (some pgc) cl) :
    gs = nodes_by_pid gp (main_node_list gp nodes) ∧
    ∃ first d, (main_node_list gp nodes).head? = some first ∧
      cfg.lookupDef (gp first) = some d ∧ d.exclusive = true ∧
      jobTruthy jid = true ∧ 1 < (main_node_list gp nodes).length ∧
      pgc = create_placement_groups_configs cfg.cluster_name (jid.getD "")
        (main_node_list gp nodes).length d.region := by
  unfold main_plan main_plan_core at h
  match hh : (main_node_list gp nodes).head? with
  | none => rw [hh] at h; simp at h
  | some first =>
    rw [hh] at h
    simp only at h
    by_cases hj : jobTruthy jid
    · rw [if_pos hj] at h
      match hl : cfg.lookupDef (gp first) with
      | none => rw [hl] at h; simp at h
      | some d =>
        rw [hl] at h
        simp only at h
        by_cases hex : !d.exclusive
        · rw [if_pos hex] at h; simp at h
        · rw [if_neg hex] at h
          by_cases hcond : d.enable_placement && (machineFamily d.machine_type == "c2")
              && decide ((main_node_list gp nodes).length > 1)
          · rw [if_pos hcond] at h
            simp only [dispatch_of, MainPlan.dispatch.injEq, Option.some_inj] at h
            obtain ⟨rfl, hpg, rfl⟩ := h
            refine ⟨rfl, first, d, rfl, hl, ?_, hj, ?_, hpg.symm⟩
            · simpa using hex
            · simp only [Bool.and_eq_true, decide_eq_true_eq] at hcond
              exact hcond.2
          · rw [if_neg hcond] at h
            simp [dispatch_of] at h
    · rw [if_neg hj] at h
      match hdrop : drop_exclusive cfg (nodes_by_pid gp (main_node_list gp nodes)) with
      | .error q => rw [hdrop] at h; simp at h
      | .ok g₂ =>
        rw [hdrop] at h
        simp [dispatch_of] at h

theorem main_plan_nojob (cfg : Cfg) (gp : String → String) (nodes : List String)
    (jid : Option String) (hj : jobTruthy jid = false)
    (hne : main_node_list gp nodes ≠ [])
    (hdefs : ∀ pr ∈ nodes_by_pid gp (main_node_list gp nodes), (cfg.lookupDef pr.1).isSome) :
    main_plan cfg gp nodes jid =
      dispatch_of ((nodes_by_pid gp (main_node_list gp nodes)).filter (keepGroup cfg)) none := by
  unfold main_plan main_plan_core
  match hh : (main_node_list gp nodes).head? with
  | none => exact absurd (List.head?_eq_none_iff.mp hh) hne
  | some first =>
    simp only [hj, Bool.false_eq_true, if_false, drop_exclusive_ok cfg _ hdefs]

theorem main_plan_prolog_noop (cfg : Cfg) (gp : String → String) (nodes : List String)
    (jid : Option String) (first : String) (d : InstanceDef)
    (hj : jobTruthy jid = true)
    (hh : (main_node_list gp nodes).head? = some first)
    (hl : cfg.lookupDef (gp first) = some d)
    (hex : d.exclusive = false) :
    main_plan cfg gp nodes jid = .earlyReturn := by
  unfold main_plan main_plan_core
  rw [hh]
  simp only [hj, if_true, hl, hex]
  simp

/-! ### Further helper lemmas -/

theorem sublist_flatten {α : Type _} {L₁ L₂ : List (List α)} (h : L₁.Sublist L₂) :
    L₁.flatten.Sublist L₂.flatten := by
  induction h with
  | slnil => exact List.Sublist.refl _
  | cons l _ ih =>
    rw [List.flatten_cons]
    exact ih.trans (List.sublist_append_right l _)
  | cons₂ l _ ih =>
    rw [List.flatten_cons, List.flatten_cons]
    exact ih.append_left l

theorem countP_mem_eq_one {α : Type _} [DecidableEq α] :
    ∀ L : List (List α), L.flatten.Nodup → ∀ x ∈ L.flatten,
      L.countP (fun l => decide (x ∈ l)) = 1
  | [], _, x, hx => by simp at hx
  | g :: L, hnd, x, hx => by
    rw [List.flatten_cons] at hnd hx
    rw [List.nodup_append] at hnd
    obtain ⟨_, h₂, hdisj⟩ := hnd
    rw [List.countP_cons]
    rcases List.mem_append.mp hx with hxg | hxL
    · have hnot : x ∉ L.flatten := fun hc => hdisj hxg hc
      have hcnt : L.countP (fun l => decide (x ∈ l)) = 0 := by
        rw [List.countP_eq_zero]
        intro l hl
        simp only [decide_eq_true_eq]
        exact fun hxl => hnot (List.mem_flatten.mpr ⟨l, hl, hxl⟩)
      simp [hcnt, hxg]
    · have hxg' : x ∉ g := fun hc => hdisj hc hxL
      have := countP_mem_eq_one L h₂ x hxL
      simp [this, hxg']

theorem groupPidAux_const (gp : String → String) :
    ∀ (l : List String) (p : String) (acc : List String), (∀ x ∈ l, gp x = p) →
      groupPidAux gp l p acc = [acc.reverse ++ l]
  | [], _, _, _ => by simp [groupPidAux]
  | b :: rest, p, acc, h => by
    have hb : (gp b == p) = true := by
      simp only [beq_iff_eq]
      exact h b (List.mem_cons_self _ _)
    simp only [groupPidAux, hb, if_true]
    rw [groupPidAux_const gp rest p (b :: acc)
      (fun x hx => h x (List.mem_cons_of_mem _ hx))]
    simp

theorem nodes_by_pid_const (gp : String → String) (l : List String) (p : String)
    (hne : l ≠ []) (hp : ∀ x ∈ l, gp x = p) :
    nodes_by_pid gp l = [(p, l)] := by
  match l, hne with
  | a :: rest, _ =>
    have h1 : groupByPid gp (a :: rest) = groupPidAux gp rest (gp a) [a] := rfl
    unfold nodes_by_pid
    rw [h1, groupPidAux_const gp rest (gp a) [a]
      (fun x hx => by
        rw [hp x (List.mem_cons_of_mem _ hx), hp a (List.mem_cons_self _ _)])]
    simp [hp a (List.mem_cons_self _ _)]

/-! ### Claim C2: scheduling-field precedence -/

/-- An instance definition on which two scheduling branches apply at once:
it is preemptible, and a placement-group name is attached. -/
def c2exDef : InstanceDef :=
  { machine_type := "c2-standard-60", gpu_type := none, gpu_count := 0,
    preemptible_bursting := true, enable_placement := true, exclusive := true,
    region := "r", zone := "z", regional_capacity := false }

/-- C2, counterexample: with both the placement branch and the preemptible
branch applicable, the effective scheduling field is the preemptible one,
not the placement one — the claimed precedence placement > accelerator >
preemptible does not hold; sequential overwrites make the LAST applicable
branch win. -/
theorem C2_counterexample :
    ((some "pg-1" : Option String).isSome = true ∧ c2exDef.preemptible_bursting = true) ∧
    (create_instance_config c2exDef (some "pg-1")).scheduling ≠ some placementScheduling ∧
    (create_instance_config c2exDef (some "pg-1")).scheduling = some preemptibleScheduling := by
  decide

/-- C2, amended: the three `if` statements overwrite `config['scheduling']`
sequentially, so the effective precedence is preemptible > accelerator >
placement (the last applicable branch wins).  This characterises the
scheduling field completely. -/
theorem C2_amended_scheduling_precedence (d : InstanceDef) (pg : Option String) :
    (create_instance_config d pg).scheduling =
      (if d.preemptible_bursting then some preemptibleScheduling
       else if strTruthy d.gpu_type then some gpuScheduling
       else if pg.isSome then some placementScheduling
       else none) := by
  unfold create_instance_config
  by_cases h1 : pg.isSome <;> by_cases h2 : strTruthy d.gpu_type <;>
    by_cases h3 : d.preemptible_bursting <;> simp [h1, h2, h3]

/-! ### Claim C6: placement-group sizes and names -/

/-- C6: for `n > 0` the allocator creates exactly `ceil(n/22) = (n+21)/22`
groups, each of capacity at most 22, with capacities summing to exactly
`n`, and the k-th group (0-based) is named
`cluster_name ++ "-" ++ job_id ++ "-" ++ toString (k+1)`. -/
theorem C6_placement_group_partition (cn j : String) (n : Nat) (r : String) (hn : 0 < n) :
    (create_placement_groups_configs cn j n r).length = (n + 21) / 22 ∧
    (∀ c ∈ create_placement_groups_configs cn j n r, c.vmCount ≤ 22) ∧
    ((create_placement_groups_configs cn j n r).map PGConfig.vmCount).sum = n ∧
    (∀ k, k < (n + 21) / 22 →
      (create_placement_groups cn j n r).get? k =
        some (cn ++ "-" ++ j ++ "-" ++ toString (k + 1))) := by
  refine ⟨?_, ?_, ?_, ?_⟩
  · rw [create_placement_groups_configs_eq]
    simp
  · intro c hc
    rw [create_placement_groups_configs_eq] at hc
    obtain ⟨k, _, rfl⟩ := List.mem_map.mp hc
    exact min_le_right _ _
  · rw [create_placement_groups_configs_eq, List.map_map]
    exact pg_sizes_sum ((n + 21) / 22) n rfl
  · intro k hk
    unfold create_placement_groups
    rw [create_placement_groups_configs_eq, List.map_map, List.get?_map,
      List.get?_range hk]
    rfl

/-- C6 witness at the spec's example `n = 50`: three groups of sizes
`[22, 22, 6]`. -/
theorem C6_placement_group_partition_witness :
    (0 < 50) ∧
    (((create_placement_groups_configs "g1" "77" 50 "r").length = (50 + 21) / 22 ∧
      (∀ c ∈ create_placement_groups_configs "g1" "77" 50 "r", c.vmCount ≤ 22) ∧
      ((create_placement_groups_configs "g1" "77" 50 "r").map PGConfig.vmCount).sum = 50 ∧
      (∀ k, k < (50 + 21) / 22 →
        (create_placement_groups "g1" "77" 50 "r").get? k =
          some ("g1" ++ "-" ++ "77" ++ "-" ++ toString (k + 1)))) ∧
    (create_placement_groups_configs "g1" "77" 50 "r").map PGConfig.vmCount = [22, 22, 6]) :=
  ⟨by decide, C6_placement_group_partition "g1" "77" 50 "r" (by decide), by decide⟩

/-! ### Claim C7: chunk size bounds -/

/-- C7: every chunk has at most 1000 nodes, and a chunk that carries a
placement-group reference has at most 22 nodes. -/
theorem C7_chunk_size_bounds (lst : List String) (pg_names : Option (List String))
    (c : NodeChunk) (hc : c ∈ chunks lst pg_names) :
    c.nodes.length ≤ 1000 ∧ (c.pg.isSome = true → c.nodes.length ≤ 22) :=
  chunks_size lst pg_names c hc

/-- C7 witness: a concrete placement-bearing chunk. -/
theorem C7_chunk_size_bounds_witness :
    ({ nodes := ["n1"], pg := some "g" } : NodeChunk) ∈ chunks ["n1"] (some ["g"]) ∧
    (({ nodes := ["n1"], pg := some "g" } : NodeChunk).nodes.length ≤ 1000 ∧
      (({ nodes := ["n1"], pg := some "g" } : NodeChunk).pg.isSome = true →
        ({ nodes := ["n1"], pg := some "g" } : NodeChunk).nodes.length ≤ 22)) :=
  ⟨by decide, C7_chunk_size_bounds ["n1"] (some ["g"]) _ (by decide)⟩

/-! ### Claim C5: per-chunk failure isolation -/

/-- C5: when the provider interaction for a chunk `C` raises (oracle
`op_fails C = true`), the worker calls `down_nodes` exactly once, with
exactly `C`'s node list and the fixed reason string, submits nothing, and
returns normally (the model function is total — no exception propagates).
Moreover each dispatched chunk's outcome is `add_instances` of that chunk
alone, and the outcome of any chunk other than `C` is unchanged under any
modification of the oracle's verdict on `C` only. -/
theorem C5_failure_isolation (cfg : Cfg) (gp : String → String)
    (op_fails : NodeChunk → Bool) (C : NodeChunk) (n0 : String) (rest : List String)
    (d : InstanceDef) (hn : C.nodes = n0 :: rest)
    (hd : cfg.lookupDef (gp n0) = some d) (hf : op_fails C = true) :
    down_calls (add_instances cfg gp op_fails C) = [(C.nodes, RESUME_FAIL_REASON)] ∧
    submissions (add_instances cfg gp op_fails C) = [] ∧
    (∀ (plan : MainPlan) (i : Nat),
      (run_plan cfg gp op_fails plan).get? i =
        ((plan_chunks plan).get? i).map (add_instances cfg gp op_fails)) ∧
    (∀ f g : NodeChunk → Bool, (∀ c, c ≠ C → f c = g c) →
      ∀ c, c ≠ C → add_instances cfg gp f c = add_instances cfg gp g c) := by
  have hexec : add_instances cfg gp op_fails C = .downed C.nodes RESUME_FAIL_REASON := by
    unfold add_instances
    rw [hn]
    simp only [List.head?_cons, hd, hf, if_true]
  refine ⟨by rw [hexec]; rfl, by rw [hexec]; rfl, ?_, ?_⟩
  · intro plan i
    unfold run_plan
    exact List.get?_map _ _ _
  · intro f g hfg c hc
    unfold add_instances
    rw [hfg c hc]

def w5Def : InstanceDef :=
  { machine_type := "n1-standard-1", gpu_type := none, gpu_count := 0,
    preemptible_bursting := false, enable_placement := false, exclusive := false,
    region := "r", zone := "z", regional_capacity := false }

def w5Cfg : Cfg := { cluster_name := "g1", instance_defs := [("a", w5Def)] }

def w5Gp : String → String := fun _ => "a"

def w5Chunk : NodeChunk := { nodes := ["a-1", "a-2"], pg := none }

/-- C5 witness: a concrete failing chunk. -/
theorem C5_failure_isolation_witness :
    down_calls (add_instances w5Cfg w5Gp (fun _ => true) w5Chunk) =
      [(w5Chunk.nodes, RESUME_FAIL_REASON)] ∧
    submissions (add_instances w5Cfg w5Gp (fun _ => true) w5Chunk) = [] :=
  ⟨(C5_failure_isolation w5Cfg w5Gp (fun _ => true) w5Chunk "a-1" ["a-2"] w5Def
      (by decide) (by decide) rfl).1,
   (C5_failure_isolation w5Cfg w5Gp (fun _ => true) w5Chunk "a-1" ["a-2"] w5Def
      (by decide) (by decide) rfl).2.1⟩

/-! ### Claim C8: PrologSlurmctld no-op -/

/-- C8: with a job id supplied and the first (pid-sorted) node's pid not
marked exclusive, `main` returns at line 295: no chunks, no placement
groups, no chunk is executed. -/
theorem C8_prolog_noop (cfg : Cfg) (gp : String → String) (nodes : List String)
    (jid : Option String) (first : String) (d : InstanceDef)
    (op_fails : NodeChunk → Bool)
    (hj : jobTruthy jid = true)
    (hh : (main_node_list gp nodes).head? = some first)
    (hl : cfg.lookupDef (gp first) = some d)
    (hex : d.exclusive = false) :
    main_plan cfg gp nodes jid = .earlyReturn ∧
    plan_chunks (main_plan cfg gp nodes jid) = [] ∧
    plan_placement (main_plan cfg gp nodes jid) = none ∧
    run_plan cfg gp op_fails (main_plan cfg gp nodes jid) = [] := by
  have h := main_plan_prolog_noop cfg gp nodes jid first d hj hh hl hex
  rw [h]
  exact ⟨rfl, rfl, rfl, rfl⟩

/-- C8 witness: non-exclusive pid with a job id. -/
theorem C8_prolog_noop_witness :
    main_plan w5Cfg w5Gp ["a-1"] (some "7") = .earlyReturn ∧
    plan_chunks (main_plan w5Cfg w5Gp ["a-1"] (some "7")) = [] :=
  ⟨(C8_prolog_noop w5Cfg w5Gp ["a-1"] (some "7") "a-1" w5Def (fun _ => false)
      (by decide) (by rw [main_node_list_of_sorted w5Gp ["a-1"] (by decide)]; rfl)
      (by decide) (by decide)).1,
   (C8_prolog_noop w5Cfg w5Gp ["a-1"] (some "7") "a-1" w5Def (fun _ => false)
      (by decide) (by rw [main_node_list_of_sorted w5Gp ["a-1"] (by decide)]; rfl)
      (by decide) (by decide)).2.1⟩

/-! ### Claim C10: stable sort by pid before classification -/

/-- C10: line 289 sorts the expanded node list stably by pid before
classification: the sorted list is pid-ordered; the subsequence with any
fixed pid keeps its original input order; each pid's nodes form exactly
one contiguous group in the classification; and the node whose pid
decides the exclusive no-op check (and placement eligibility) — the head
of the sorted list — carries a minimal pid over the whole input, not
necessarily the pid of the first node of the input expression. -/
theorem C10_stable_sort (gp : String → String) (nodes : List String) :
    (main_node_list gp nodes).Pairwise (fun a b => gp a ≤ gp b) ∧
    (∀ p : String, (main_node_list gp nodes).filter (fun x => gp x == p) =
      nodes.filter (fun x => gp x == p)) ∧
    (∀ pr ∈ nodes_by_pid gp (main_node_list gp nodes),
      pr.2 = (main_node_list gp nodes).filter (fun x => gp x == pr.1)) ∧
    (∀ first, (main_node_list gp nodes).head? = some first →
      ∀ x ∈ nodes, gp first ≤ gp x) :=
  ⟨main_node_list_sorted gp nodes,
   fun p => main_node_list_filter gp nodes p,
   nodes_by_pid_filter gp (main_node_list gp nodes) (main_node_list_sorted gp nodes),
   fun first h x hx => main_node_list_head_min gp nodes first h x hx⟩

def w10Gp : String → String := fun s => if s = "b-1" then "b" else "a"

/-- C10 witness: the decision pid of a two-pid input is the minimal one. -/
theorem C10_stable_sort_witness :
    (main_node_list w10Gp ["a-1", "b-1"]).head? = some "a-1" ∧
    (∀ x ∈ ["a-1", "b-1"], w10Gp "a-1" ≤ w10Gp x) ∧
    (main_node_list w10Gp ["a-1", "b-1"]).filter (fun x => w10Gp x == "a") =
      ["a-1", "b-1"].filter (fun x => w10Gp x == "a") := by
  have hml : main_node_list w10Gp ["a-1", "b-1"] = ["a-1", "b-1"] :=
    main_node_list_of_sorted _ _ (by decide)
  refine ⟨by rw [hml]; rfl, ?_, (C10_stable_sort w10Gp ["a-1", "b-1"]).2.1 "a"⟩
  exact (C10_stable_sort w10Gp ["a-1", "b-1"]).2.2.2 "a-1" (by rw [hml]; rfl)

/-! ### Claim C1: chunks partition the classified node groups -/

/-- C1: whenever `main` dispatches chunks, the chunks across all pids
partition the classified node groups exactly: their concatenation equals
the concatenation of the groups (order preserved); no chunk is empty;
within each pid group the chunks concatenate to exactly that group; each
group is the input subsequence with that pid in original input order; and
(for duplicate-free input) every classified node appears in exactly one
chunk. -/
theorem C1_chunks_partition (cfg : Cfg) (gp : String → String) (nodes : List String)
    (jid : Option String) (gs : List (String × List String)) (pl : Option (List PGConfig))
    (cl : List NodeChunk)
    (hplan : main_plan cfg gp nodes jid = .dispatch gs pl cl)
    (hnd : nodes.Nodup) :
    ((cl.map NodeChunk.nodes).flatten = (gs.map Prod.snd).flatten) ∧
    (∀ c ∈ cl, c.nodes ≠ []) ∧
    (∀ pr ∈ gs, ((chunks pr.2 (plan_pg_names pl)).map NodeChunk.nodes).flatten = pr.2) ∧
    (∀ pr ∈ gs, pr.2 = nodes.filter (fun x => gp x == pr.1)) ∧
    (∀ x ∈ (gs.map Prod.snd).flatten, cl.countP (fun c => decide (x ∈ c.nodes)) = 1) := by
  obtain ⟨hcl, hsub⟩ := main_plan_dispatch_inv cfg gp nodes jid gs pl cl hplan
  have h1 : (cl.map NodeChunk.nodes).flatten = (gs.map Prod.snd).flatten := by
    rw [hcl, List.map_flatten, List.map_map, List.flatten_flatten, List.map_map]
    congr 1
    refine List.map_congr_left ?_
    intro pr _
    exact chunks_flatten pr.2 (plan_pg_names pl)
  have h2 : ∀ c ∈ cl, c.nodes ≠ [] := by
    intro c hc
    rw [hcl] at hc
    obtain ⟨l, hl, hcin⟩ := List.mem_flatten.mp hc
    obtain ⟨pr, _, rfl⟩ := List.mem_map.mp hl
    exact chunks_nonempty pr.2 (plan_pg_names pl) c hcin
  have hsort := main_node_list_sorted gp nodes
  have h4 : ∀ pr ∈ gs, pr.2 = nodes.filter (fun x => gp x == pr.1) := by
    intro pr hpr
    have hpr' : pr ∈ nodes_by_pid gp (main_node_list gp nodes) := hsub.subset hpr
    rw [nodes_by_pid_filter gp _ hsort pr hpr', main_node_list_filter]
  have hndf : ((gs.map Prod.snd).flatten).Nodup := by
    have hsubf : ((gs.map Prod.snd).flatten).Sublist
        (((nodes_by_pid gp (main_node_list gp nodes)).map Prod.snd).flatten) :=
      sublist_flatten (hsub.map Prod.snd)
    rw [nodes_by_pid_flatten] at hsubf
    exact (main_node_list_nodup gp nodes hnd).sublist hsubf
  have h5 : ∀ x ∈ (gs.map Prod.snd).flatten,
      cl.countP (fun c => decide (x ∈ c.nodes)) = 1 := by
    intro x hx
    have hx' : x ∈ (cl.map NodeChunk.nodes).flatten := by rw [h1]; exact hx
    have hnd' : ((cl.map NodeChunk.nodes).flatten).Nodup := by rw [h1]; exact hndf
    have hcount := countP_mem_eq_one (cl.map NodeChunk.nodes) hnd' x hx'
    rw [List.countP_map] at hcount
    simpa [Function.comp] using hcount
  exact ⟨h1, h2, fun pr _ => chunks_flatten pr.2 (plan_pg_names pl), h4, h5⟩

def w1Def : InstanceDef :=
  { machine_type := "c2-standard-60", gpu_type := none, gpu_count := 0,
    preemptible_bursting := false, enable_placement := true, exclusive := true,
    region := "r", zone := "z", regional_capacity := false }

def w1Cfg : Cfg := { cluster_name := "g1", instance_defs := [("a", w1Def)] }

/-- C1 witness: a concrete dispatched plan. -/
theorem C1_chunks_partition_witness :
    (main_plan w1Cfg w5Gp ["a-1", "a-2"] (some "7") =
      .dispatch [("a", ["a-1", "a-2"])]
        (some [{ name := "g1-7-1", region := "r", vmCount := 2 }])
        [{ nodes := ["a-1", "a-2"], pg := some "g1-7-1" }]) ∧
    (["a-1", "a-2"] : List String).Nodup ∧
    (([{ nodes := ["a-1", "a-2"], pg := some "g1-7-1" }] : List NodeChunk).map
        NodeChunk.nodes).flatten =
      (([("a", ["a-1", "a-2"])] : List (String × List String)).map Prod.snd).flatten := by
  have hp : main_plan w1Cfg w5Gp ["a-1", "a-2"] (some "7") =
      .dispatch [("a", ["a-1", "a-2"])]
        (some [{ name := "g1-7-1", region := "r", vmCount := 2 }])
        [{ nodes := ["a-1", "a-2"], pg := some "g1-7-1" }] := by
    unfold main_plan
    rw [main_node_list_of_sorted w5Gp ["a-1", "a-2"] (by decide)]
    decide
  exact ⟨hp, by decide,
    (C1_chunks_partition w1Cfg w5Gp ["a-1", "a-2"] (some "7") _ _ _ hp (by decide)).1⟩

/-! ### Claim C9: exclusive pids dropped when no job id is supplied -/

/-- C9: with no job id, the classification mapping is exactly the
classified groups restricted to non-exclusive pids (when every classified
pid has a definition — a missing one is a fatal `KeyError`, claim C3):
every exclusive pid is dropped, so it contributes zero chunks; every
non-exclusive group is kept unchanged, and the dispatched chunks are
exactly the per-kept-group chunks. -/
theorem C9_exclusive_dropped (cfg : Cfg) (gp : String → String) (nodes : List String)
    (jid : Option String) (hj : jobTruthy jid = false)
    (hne : main_node_list gp nodes ≠ [])
    (hdefs : ∀ pr ∈ nodes_by_pid gp (main_node_list gp nodes), (cfg.lookupDef pr.1).isSome) :
    plan_groups (main_plan cfg gp nodes jid) =
      (nodes_by_pid gp (main_node_list gp nodes)).filter (keepGroup cfg) ∧
    (∀ pr ∈ nodes_by_pid gp (main_node_list gp nodes), ∀ d : InstanceDef,
      cfg.lookupDef pr.1 = some d → d.exclusive = true →
      pr ∉ plan_groups (main_plan cfg gp nodes jid)) ∧
    (∀ pr ∈ nodes_by_pid gp (main_node_list gp nodes), ∀ d : InstanceDef,
      cfg.lookupDef pr.1 = some d → d.exclusive = false →
      pr ∈ plan_groups (main_plan cfg gp nodes jid)) ∧
    plan_chunks (main_plan cfg gp nodes jid) =
      ((plan_groups (main_plan cfg gp nodes jid)).map (fun pr => chunks pr.2 none)).flatten := by
  have h := main_plan_nojob cfg gp nodes jid hj hne hdefs
  rw [h]
  refine ⟨rfl, ?_, ?_, rfl⟩
  · intro pr _ d hd hex hmem
    have hmem' : pr ∈ (nodes_by_pid gp (main_node_list gp nodes)).filter (keepGroup cfg) :=
      hmem
    have hkeep : keepGroup cfg pr = true := (List.mem_filter.mp hmem').2
    unfold keepGroup at hkeep
    rw [hd] at hkeep
    simp [hex] at hkeep
  · intro pr hpr d hd hex
    show pr ∈ (nodes_by_pid gp (main_node_list gp nodes)).filter (keepGroup cfg)
    refine List.mem_filter.mpr ⟨hpr, ?_⟩
    unfold keepGroup
    rw [hd]
    simp [hex]

def w9DefA : InstanceDef :=
  { machine_type := "n1-standard-1", gpu_type := none, gpu_count := 0,
    preemptible_bursting := false, enable_placement := false, exclusive := true,
    region := "r", zone := "z", regional_capacity := false }

def w9Cfg : Cfg := { cluster_name := "g1", instance_defs := [("a", w9DefA), ("b", w5Def)] }

/-- C9 witness: pid `a` exclusive (dropped), pid `b` not (kept). -/
theorem C9_exclusive_dropped_witness :
    plan_groups (main_plan w9Cfg w10Gp ["a-1", "b-1"] none) =
      (nodes_by_pid w10Gp (main_node_list w10Gp ["a-1", "b-1"])).filter (keepGroup w9Cfg) ∧
    plan_groups (main_plan w9Cfg w10Gp ["a-1", "b-1"] none) = [("b", ["b-1"])] := by
  have hml : main_node_list w10Gp ["a-1", "b-1"] = ["a-1", "b-1"] :=
    main_node_list_of_sorted _ _ (by decide)
  have h1 := (C9_exclusive_dropped w9Cfg w10Gp ["a-1", "b-1"] none rfl
    (by rw [hml]; decide) (by rw [hml]; decide)).1
  refine ⟨h1, ?_⟩
  rw [h1, hml]
  decide

/-! ### Claim C3: missing InstanceDefinition -/

def c3Def : InstanceDef :=
  { machine_type := "n1-standard-1", gpu_type := none, gpu_count := 0,
    preemptible_bursting := false, enable_placement := false, exclusive := true,
    region := "r", zone := "z", regional_capacity := false }

def c3Cfg : Cfg := { cluster_name := "g1", instance_defs := [("a", c3Def)] }

/-- C3, counterexample: with a job id supplied and nodes of pids `a`
(defined, exclusive) and `b` (no `InstanceDef`), planning does NOT fail:
the invocation dispatches chunks, and the chunk of pid `a` submits its
bulk-create request even though classified pid `b` has no definition
(pid `b`'s worker dies on the uncaught `KeyError` at line 216, without
reconciliation).  So the claim "fails fatally before any chunk executes:
no bulk-create request is submitted for any chunk" is false on this
input. -/
theorem C3_counterexample :
    c3Cfg.lookupDef "b" = none ∧
    ("b", ["b-1"]) ∈ plan_groups (main_plan c3Cfg w10Gp ["a-1", "b-1"] (some "7")) ∧
    ((run_plan c3Cfg w10Gp (fun _ => false)
        (main_plan c3Cfg w10Gp ["a-1", "b-1"] (some "7"))).map submissions).flatten =
      [["a-1"]] ∧
    ((run_plan c3Cfg w10Gp (fun _ => false)
        (main_plan c3Cfg w10Gp ["a-1", "b-1"] (some "7"))).map down_calls).flatten = [] := by
  have hml : main_node_list w10Gp ["a-1", "b-1"] = ["a-1", "b-1"] :=
    main_node_list_of_sorted _ _ (by decide)
  refine ⟨by decide, ?_, ?_, ?_⟩ <;>
    · unfold main_plan
      rw [hml]
      decide

/-- C3, amended: a missing `InstanceDef` is fatal during planning — no
chunk executes — in exactly two situations: (a) no job id is supplied and
ANY classified pid is missing (the `KeyError` in the exclusive-pid
deletion at line 302), or (b) a job id is supplied and the FIRST sorted
node's pid is missing (line 293).  With a job id, a missing definition
for a non-first pid does not abort the invocation (see the
counterexample: only that pid's chunks die, unreconciled). -/
theorem C3_amended_config_error (cfg : Cfg) (gp : String → String) (nodes : List String)
    (jid : Option String) (op_fails : NodeChunk → Bool) :
    ((jobTruthy jid = false) →
      (∃ pr ∈ nodes_by_pid gp (main_node_list gp nodes), cfg.lookupDef pr.1 = none) →
      (∃ p, main_plan cfg gp nodes jid = .keyError p) ∧
      run_plan cfg gp op_fails (main_plan cfg gp nodes jid) = []) ∧
    (∀ first, jobTruthy jid = true →
      (main_node_list gp nodes).head? = some first →
      cfg.lookupDef (gp first) = none →
      main_plan cfg gp nodes jid = .keyError (gp first) ∧
      run_plan cfg gp op_fails (main_plan cfg gp nodes jid) = []) := by
  constructor
  · intro hj hmiss
    match hh : (main_node_list gp nodes).head? with
    | none =>
      have hemp : main_node_list gp nodes = [] := List.head?_eq_none_iff.mp hh
      rw [hemp] at hmiss
      simp [nodes_by_pid, groupByPid] at hmiss
    | some first =>
      obtain ⟨p, hp⟩ := drop_exclusive_error cfg _ hmiss
      have hplan : main_plan cfg gp nodes jid = .keyError p := by
        unfold main_plan main_plan_core
        rw [hh]
        simp only [hj, Bool.false_eq_true, if_false, hp]
      exact ⟨⟨p, hplan⟩, by rw [hplan]; rfl⟩
  · intro first hj hh hl
    have hplan : main_plan cfg gp nodes jid = .keyError (gp first) := by
      unfold main_plan main_plan_core
      rw [hh]
      simp only [hj, if_true, hl]
    exact ⟨hplan, by rw [hplan]; rfl⟩

def c3bCfg : Cfg := { cluster_name := "g1", instance_defs := [] }

/-- C3 amended witness: no job id, pid without a definition. -/
theorem C3_amended_config_error_witness :
    (∃ p, main_plan c3bCfg w10Gp ["a-1"] none = .keyError p) ∧
    run_plan c3bCfg w10Gp (fun _ => false) (main_plan c3bCfg w10Gp ["a-1"] none) = [] := by
  have hml : main_node_list w10Gp ["a-1"] = ["a-1"] :=
    main_node_list_of_sorted _ _ (by decide)
  exact (C3_amended_config_error c3bCfg w10Gp ["a-1"] none (fun _ => false)).1 rfl
    (by rw [hml]; decide)

/-! ### Claim C4: placement-group / chunk alignment -/

def c4Cfg : Cfg := { cluster_name := "g1", instance_defs := [("a", w1Def)] }

def c4Nodes : List String := (List.range 23).map (fun i => "a" ++ toString i) ++ ["b-1"]

/-- C4, counterexample: with 23 pid-`a` nodes and one pid-`b` node under a
job id, the allocator is invoked once with the TOTAL node count (24),
yielding two placement groups; but pid `b`'s group produces a single
chunk — not aligned 1:1 with the two-element group list — and that chunk
references the same first placement group as pid `a`'s first chunk (so a
placement group is shared by chunks of different node groups, and its
22-capacity is oversubscribed). -/
theorem C4_counterexample :
    plan_placement (main_plan c4Cfg w10Gp c4Nodes (some "7")) =
      some [{ name := "g1-7-1", region := "r", vmCount := 22 },
            { name := "g1-7-2", region := "r", vmCount := 2 }] ∧
    ("b", ["b-1"]) ∈ plan_groups (main_plan c4Cfg w10Gp c4Nodes (some "7")) ∧
    (chunks ["b-1"] (plan_pg_names
        (plan_placement (main_plan c4Cfg w10Gp c4Nodes (some "7"))))).length = 1 ∧
    (∃ c₁ ∈ plan_chunks (main_plan c4Cfg w10Gp c4Nodes (some "7")),
     ∃ c₂ ∈ plan_chunks (main_plan c4Cfg w10Gp c4Nodes (some "7")),
       c₁.nodes ≠ c₂.nodes ∧ c₁.pg = some "g1-7-1" ∧ c₂.pg = some "g1-7-1") := by
  have hml : main_node_list w10Gp c4Nodes = c4Nodes :=
    main_node_list_of_sorted _ _ (by decide)
  refine ⟨?_, ?_, ?_, ?_⟩ <;>
    · unfold main_plan
      rw [hml]
      decide

/-- C4, amended: when all requested nodes share one pid (the situation the
spec describes: the allocator's count equals that single node group's
size), the alignment is exact: the classification yields one group — the
whole sorted node list — the number of chunks equals the number of
placement groups, and the i-th chunk references precisely the name of the
i-th placement group.  (With several pid groups the same group-name list,
computed from the total count, is reused by every group in the same
index-aligned way, so 1:1 alignment fails — see the counterexample.) -/
theorem C4_amended_alignment (cfg : Cfg) (gp : String → String) (nodes : List String)
    (jid : Option String) (gs : List (String × List String)) (pgc : List PGConfig)
    (cl : List NodeChunk) (p : String)
    (hplan : main_plan cfg gp nodes jid = .dispatch gs (some pgc) cl)
    (hp : ∀ x ∈ nodes, gp x = p) :
    gs = [(p, main_node_list gp nodes)] ∧
    cl = chunks (main_node_list gp nodes) (some (pgc.map PGConfig.name)) ∧
    cl.length = pgc.length ∧
    (∀ i c, cl.get? i = some c →
      c.pg = (pgc.map PGConfig.name).get? i ∧
      ((pgc.map PGConfig.name).get? i).isSome = true) := by
  obtain ⟨hgs, first, d, hh, hl, hex, hj, hlen, hpgc⟩ :=
    main_plan_placement_inv cfg gp nodes jid gs pgc cl hplan
  obtain ⟨hcl, _⟩ := main_plan_dispatch_inv cfg gp nodes jid gs (some pgc) cl hplan
  have hp' : ∀ x ∈ main_node_list gp nodes, gp x = p := fun x hx =>
    hp x ((main_node_list_perm gp nodes).subset hx)
  have hne : main_node_list gp nodes ≠ [] := by
    intro hemp
    rw [hemp] at hh
    simp at hh
  have hgs₂ : gs = [(p, main_node_list gp nodes)] := by
    rw [hgs]
    exact nodes_by_pid_const gp _ p hne hp'
  have hcl₂ : cl = chunks (main_node_list gp nodes) (some (pgc.map PGConfig.name)) := by
    rw [hcl, hgs₂]
    simp [plan_pg_names]
  have hpgclen : pgc.length = ((main_node_list gp nodes).length + 21) / 22 := by
    rw [hpgc, create_placement_groups_configs_eq]
    simp
  have hpgcpos : 0 < pgc.length := by
    rw [hpgclen]
    omega
  have hpgcne : pgc.map PGConfig.name ≠ [] := by
    intro hemp
    have := congrArg List.length hemp
    simp only [List.length_map, List.length_nil] at this
    omega
  have htruthy : pgTruthy (some (pgc.map PGConfig.name)) = true := by
    unfold pgTruthy
    simp [List.isEmpty_eq_false.mpr hpgcne]
  have hchunkform : chunks (main_node_list gp nodes) (some (pgc.map PGConfig.name)) =
      chunksGo true (pgc.map PGConfig.name) PLACEMENT_MAX_CNT
        (main_node_list gp nodes).length (main_node_list gp nodes) 0 := by
    unfold chunks
    rw [htruthy]
    rfl
  have hcllen : cl.length = pgc.length := by
    rw [hcl₂, hchunkform]
    unfold PLACEMENT_MAX_CNT
    rw [chunksGo_length_22 true (pgc.map PGConfig.name) _ _ _ (le_refl _)]
    omega
  refine ⟨hgs₂, hcl₂, hcllen, ?_⟩
  intro i c hget
  have hi : i < cl.length := by
    rcases List.get?_eq_some.mp hget with ⟨hlt, _⟩
    exact hlt
  have hpg : c.pg = (pgc.map PGConfig.name).get? i := by
    rw [hcl₂, hchunkform] at hget
    have := chunksGo_pg_get true (pgc.map PGConfig.name) PLACEMENT_MAX_CNT
      (main_node_list gp nodes).length (main_node_list gp nodes) 0 i c hget
    simpa using this
  have hisome : ((pgc.map PGConfig.name).get? i).isSome = true := by
    have hilt : i < (pgc.map PGConfig.name).length := by
      rw [List.length_map]
      omega
    rw [List.get?_eq_get hilt]
    rfl
  exact ⟨hpg, hisome⟩

/-- C4 amended witness: a single-pid placement-active invocation. -/
theorem C4_amended_alignment_witness :
    (∀ x ∈ ["a-1", "a-2"], w5Gp x = "a") ∧
    ([{ nodes := ["a-1", "a-2"], pg := some "g1-7-1" }] : List NodeChunk).length =
      ([{ name := "g1-7-1", region := "r", vmCount := 2 }] : List PGConfig).length := by
  have hp : main_plan w1Cfg w5Gp ["a-1", "a-2"] (some "7") =
      .dispatch [("a", ["a-1", "a-2"])]
        (some [{ name := "g1-7-1", region := "r", vmCount := 2 }])
        [{ nodes := ["a-1", "a-2"], pg := some "g1-7-1" }] := by
    unfold main_plan
    rw [main_node_list_of_sorted w5Gp ["a-1", "a-2"] (by decide)]
    decide
  exact ⟨by decide,
    (C4_amended_alignment w1Cfg w5Gp ["a-1", "a-2"] (some "7") _ _ _ "a" hp
      (by decide)).2.2.1⟩

end Resume
